import Mathlib

/-!
Verification of the logwrap concurrent-process-wrapper core against its
specification.  The Go sources (pkg/processor, pkg/executor, pkg/formatter,
cmd/logwrap) are shallowly embedded: the two concurrent stream-reading tasks
are modelled per stream (the only shared effects are the error collector and
the sink; claims about the collector are stated as membership so the
scheduler-dependent append order is irrelevant), context cancellation and
sink write failures are modelled as the iteration index at which the reader
task first observes them, byte strings are Lean strings (byte length
modelled as character count, which agrees on ASCII), and OS outcomes of the
child process are an explicit datatype.
-/

namespace Logwrap

/-- Model of processor.StreamType (stdout / stderr). -/
inductive StreamType
  | stdout
  | stderr
deriving DecidableEq, Repr

/-- Model of StreamType.String(). -/
def StreamType.toName : StreamType → String
  | .stdout => "stdout"
  | .stderr => "stderr"

/-- Go strings.Contains s pat: pat occurs as a contiguous substring of s. -/
def strContains (s pat : String) : Bool :=
  decide (List.IsInfix pat.toList s.toList)

/-- Go strings.ToUpper: character-wise uppercasing. -/
def strToUpper (s : String) : String := String.mk (s.toList.map Char.toUpper)

/-- Go strings.ToLower: character-wise lowercasing. -/
def strToLower (s : String) : String := String.mk (s.toList.map Char.toLower)

/-- Split a character list on a separator character, keeping empty chunks,
exactly as strings.Split does on each byte. -/
def splitOnChar (c : Char) : List Char → List (List Char)
  | [] => [[]]
  | x :: xs =>
    let r := splitOnChar c xs
    if x = c then [] :: r
    else
      match r with
      | [] => [[x]]
      | h :: t => (x :: h) :: t

namespace Processor

/-- Model of the processor maxScannerSize constant: the bufio scanner buffer
bound of one megabyte. -/
def maxScannerSize : Nat := 1024 * 1024

/-- Terminal condition reported by the bufio scanner at the end of a stream:
a token over the buffer bound, a pipe closed during shutdown (os.ErrClosed,
possibly wrapped in an os.PathError), or a genuine read fault. -/
inductive ScanIssue
  | tooLong
  | closedPipe
  | ioFault
deriving DecidableEq, Repr

/-- Error value returned by one run of processStream: the context-cancelled
error, the failed-sink-write error, or the scanner error tagged with the
stream name (fmt.Errorf "scanner error for %s"). -/
inductive StreamIssue
  | ctxCancelled
  | writeFailed
  | scanFault (st : StreamType) (e : ScanIssue)
deriving DecidableEq, Repr

/-- A reader's input: the lines the child wrote to this stream, plus the
scanner's terminal condition once they are exhausted (none is clean EOF). -/
structure StreamInput where
  lines : List String
  endIssue : Option ScanIssue
deriving Repr

/-- Scanning the stream's lines through the bounded bufio scanner: each line
within the bound is produced as a token; the first line strictly over the
bound stops the scan with bufio.ErrTooLong. -/
def scanTokens : List String → List String × Option ScanIssue
  | [] => ([], none)
  | l :: ls =>
    if l.length > maxScannerSize then ([], some .tooLong)
    else
      let r := scanTokens ls
      (l :: r.1, r.2)

/-- Whether a monotone external condition (context cancellation, sink
failure) that first becomes observable at iteration k is observed at
iteration i.  none means the condition never fires. -/
def firesAt : Option Nat → Nat → Bool
  | none, _ => false
  | some k, i => decide (k ≤ i)

/-- The body of processStream's scan loop: at each token first check
ctx.Done() and return the context-cancelled error if it has fired, then
format the line, append one newline and write it to the sink, returning the
write error if the write fails.  Produces the per-stream sequence of sink
writes together with the error the loop returns, if any. -/
def processLoop (f : String → StreamType → String) (st : StreamType)
    (cancelAt failAt : Option Nat) : Nat → List String → List String × Option StreamIssue
  | _, [] => ([], none)
  | i, l :: ls =>
    if firesAt cancelAt i then ([], some .ctxCancelled)
    else if firesAt failAt i then ([], some .writeFailed)
    else
      let r := processLoop f st cancelAt failAt (i + 1) ls
      ((f l st ++ "\n") :: r.1, r.2)

/-- Model of Processor.processStream: scan the stream with the bounded
scanner, run the loop, then apply the scanner-error epilogue: an ErrTooLong
or genuine read fault becomes the scanner error for this stream, while a
pipe closed during shutdown is treated as clean termination. -/
def processStream (f : String → StreamType → String) (st : StreamType)
    (cancelAt failAt : Option Nat) (inp : StreamInput) :
    List String × Option StreamIssue :=
  let s := scanTokens inp.lines
  let r := processLoop f st cancelAt failAt 0 s.1
  match r.2 with
  | some e => (r.1, some e)
  | none =>
    match s.2 with
    | some e => (r.1, some (.scanFault st e))
    | none =>
      match inp.endIssue with
      | some .closedPipe => (r.1, none)
      | some e => (r.1, some (.scanFault st e))
      | none => (r.1, none)

/-- One reader task's input and schedule: its stream input, the iteration at
which it first observes the shared cancellation signal, and the write count
at which the shared sink starts failing its writes. -/
structure StreamRun where
  input : StreamInput
  cancelAt : Option Nat
  failAt : Option Nat

/-- Result of Processor.ProcessStreams: success, the ErrReadersNil contract
violation, or the ErrProcessingErrors aggregate naming every collected
per-stream error. -/
inductive ProcResult
  | ok
  | readersNil
  | aggregate (errs : List (StreamType × StreamIssue))
deriving DecidableEq, Repr

/-- Observable outcome of ProcessStreams: the per-stream projections of the
sink writes (their interleaving at the shared sink is scheduler-dependent
and deliberately not modelled) and the returned result. -/
structure ProcOutcome where
  stdoutWrites : List String
  stderrWrites : List String
  result : ProcResult
deriving DecidableEq, Repr

/-- Model of Processor.ProcessStreams: nil readers are rejected with
ErrReadersNil; otherwise both reader tasks run to completion, each error is
appended to the mutex-protected collector tagged with its stream
("stdout/stderr processing error"), and a non-empty collector yields the
aggregate error.  The collector's append order is scheduler-dependent; the
model lists the stdout task's error first. -/
def processStreams (f : String → StreamType → String)
    (so se : Option StreamRun) : ProcOutcome :=
  match so, se with
  | some o, some e =>
    let r1 := processStream f .stdout o.cancelAt o.failAt o.input
    let r2 := processStream f .stderr e.cancelAt e.failAt e.input
    let errs := ([(StreamType.stdout, r1.2), (StreamType.stderr, r2.2)]).filterMap
      (fun p => p.2.map (fun i => (p.1, i)))
    ⟨r1.1, r2.1, if errs.isEmpty then .ok else .aggregate errs⟩
  | _, _ => ⟨[], [], .readersNil⟩

/-- The processor's cancellation state: whether its context has been
cancelled. -/
structure State where
  cancelled : Bool
deriving DecidableEq, Repr

/-- Model of Processor.Stop: fires the cancellation (stopOnce makes a second
invocation a no-op, which the idempotence of this function captures). -/
def stop (p : State) : State := { p with cancelled := true }

end Processor

namespace Executor

/-- The executor's static error values (pkg/apperrors) plus the wrapped
dynamic failures Start, Wait, Stop and Kill can produce. -/
inductive Err
  | commandEmpty
  | commandPathTraversal
  | alreadyStarted
  | notStarted
  | startFailed
  | waitFailed
  | stopSignalFailed
  | killSignalFailed
deriving DecidableEq, Repr

/-- One foldl step of Go's filepath.Clean over the path elements, applied to
a stack of kept elements (in reverse order): empty and "." elements are
dropped; ".." pops a poppable element, is dropped at the root, and is kept
when nothing can be popped in a relative path; other elements are pushed. -/
def cleanStep (rooted : Bool) (stack : List (List Char)) (e : List Char) : List (List Char) :=
  if e = [] ∨ e = ['.'] then stack
  else if e = ['.', '.'] then
    match stack with
    | [] => if rooted then [] else [['.', '.']]
    | top :: rest => if top = ['.', '.'] then e :: top :: rest else rest
  else e :: stack

/-- Join path elements with the slash separator. -/
def joinSlash : List (List Char) → List Char
  | [] => []
  | [x] => x
  | x :: y :: xs => x ++ '/' :: joinSlash (y :: xs)

/-- Model of Go filepath.Clean on Unix: lexically shortest equivalent path
(collapse separators, drop "." elements, resolve ".." against preceding
elements, drop ".." at the root, "." for the empty result). -/
def filepathClean (p : String) : String :=
  if p = "" then "."
  else
    let cs := p.toList
    let rooted := cs.head? = some '/'
    let elems := splitOnChar '/' cs
    let stack := elems.foldl (cleanStep rooted) []
    let body := joinSlash stack.reverse
    let out := if rooted then '/' :: body else body
    if out = [] then "." else String.mk out

/-- Model of executor.validateCommand: reject the command when its lexically
cleaned path contains ".." as a substring (strings.Contains). -/
def validateCommand (command : String) : Option Err :=
  let cleaned := filepathClean command
  if strContains cleaned ".." then some .commandPathTraversal else none

/-- The executor's mutable fields that the claims are about: the recorded
exit code, the started and finished flags, and whether the context
cancellation has been fired (Stop, Kill or Cleanup). -/
structure State where
  exitCode : Int
  isStarted : Bool
  isFinished : Bool
  cancelFired : Bool
deriving DecidableEq, Repr

/-- The state a freshly constructed executor starts in. -/
def initState : State := ⟨0, false, false, false⟩

/-- Model of executor.New: an empty command vector fails with
ErrCommandEmpty before anything else; a command rejected by validateCommand
fails with its error; otherwise the executor is created in the initial
state (pipe allocation, which can only fail at the OS level, is not
modelled). -/
def New (command : List String) : Except Err State :=
  match command with
  | [] => .error .commandEmpty
  | c :: _ =>
    match validateCommand c with
    | some e => .error e
    | none => .ok initState

/-- Model of executor.Start: fails with ErrExecutorStarted when called
twice; startOk is whether the OS spawn succeeds. -/
def Start (e : State) (startOk : Bool) : State × Option Err :=
  if e.isStarted then (e, some .alreadyStarted)
  else if startOk then ({ e with isStarted := true }, none)
  else (e, some .startFailed)

/-- How the OS wait on the child can end: normal exit with a code, death by
a signal, or an OS-level failure of the wait itself (a non-ExitError
error from cmd.Wait). -/
inductive ChildResult
  | exited (code : Nat)
  | signaled (sig : Nat)
  | osError
deriving DecidableEq, Repr

/-- Model of executor.Wait: ErrExecutorNotStarted before Start; a no-op
after the first completed wait; otherwise runs the OS wait, marks the
executor finished, and inspects the error: nil on a zero exit, an
exec.ExitError records ExitCode() (the child's code on a normal non-zero
exit, -1 when the child was killed by a signal), and any other error is a
fatal wait failure propagated to the caller with the exit code left
untouched. -/
def Wait (e : State) (r : ChildResult) : State × Option Err :=
  if ¬ e.isStarted then (e, some .notStarted)
  else if e.isFinished then (e, none)
  else
    let e1 := { e with isFinished := true }
    match r with
    | .exited 0 => (e1, none)
    | .exited c => ({ e1 with exitCode := (c : Int) }, none)
    | .signaled _ => ({ e1 with exitCode := -1 }, none)
    | .osError => (e1, some .waitFailed)

/-- Model of executor.GetExitCode. -/
def GetExitCode (e : State) : Int := e.exitCode

/-- Model of executor.IsFinished. -/
def IsFinished (e : State) : Bool := e.isFinished

/-- Model of executor.Stop: a successful no-op when the process is not
started or already finished; otherwise cancels the context and sends
SIGTERM, whose delivery (sigOk) can fail. -/
def Stop (e : State) (sigOk : Bool) : State × Option Err :=
  if ¬ e.isStarted ∨ e.isFinished then (e, none)
  else
    let e1 := { e with cancelFired := true }
    if sigOk then (e1, none) else (e1, some .stopSignalFailed)

/-- Model of executor.Kill: same no-op rule as Stop, then cancels the
context and sends the kill signal. -/
def Kill (e : State) (sigOk : Bool) : State × Option Err :=
  if ¬ e.isStarted ∨ e.isFinished then (e, none)
  else
    let e1 := { e with cancelFired := true }
    if sigOk then (e1, none) else (e1, some .killSignalFailed)

/-- Model of executor.Cleanup: closes the pipes (handles are outside the
modelled state) and cancels the context; idempotent. -/
def Cleanup (e : State) : State := { e with cancelFired := true }

/-- The executor operations that can complete before the child process has
terminated: Start, Stop, Kill and Cleanup (Wait only returns after the
child has terminated, except for the ErrExecutorNotStarted case, which
leaves the state unchanged). -/
inductive PreExitOp
  | startOp (ok : Bool)
  | stopOp (ok : Bool)
  | killOp (ok : Bool)
  | cleanupOp
deriving DecidableEq, Repr

/-- State reached by applying one pre-termination operation. -/
def applyPreExit (e : State) : PreExitOp → State
  | .startOp ok => (Start e ok).1
  | .stopOp ok => (Stop e ok).1
  | .killOp ok => (Kill e ok).1
  | .cleanupOp => Cleanup e

end Executor

/-- Taken from the spec's words, for comparison with the source's check: a
path contains a parent-directory traversal segment when ".." occurs as a
whole path element. -/
def hasParentSegment (p : String) : Bool :=
  decide (['.', '.'] ∈ splitOnChar '/' p.toList)

/-- The exit-code computation of cmd/logwrap run and main: create the
executor, start it, launch stream processing, and wait on the child.  When
Wait returns an error, run reports it and main exits with code 1; otherwise
run calls os.Exit with the executor's recorded exit code (stream-processing
errors are only printed to stderr and do not change the code). -/
def mainRunExit (r : Executor.ChildResult) : Int :=
  let e1 := (Executor.Start Executor.initState true).1
  match Executor.Wait e1 r with
  | (e2, none) => Executor.GetExitCode e2
  | (_, some _) => 1

namespace Formatter

/-- Model of config.TimestampConfig. -/
structure TimestampConfig where
  format : String
  utc : Bool
deriving DecidableEq, Repr

/-- Model of config.ColorsConfig. -/
structure ColorsConfig where
  enabled : Bool
  info : String
  error : String
  timestamp : String
deriving DecidableEq, Repr

/-- Model of config.UserConfig. -/
structure UserConfig where
  enabled : Bool
  format : String
deriving DecidableEq, Repr

/-- Model of config.PIDConfig. -/
structure PIDConfig where
  enabled : Bool
  format : String
deriving DecidableEq, Repr

/-- One element of the parsed prefix template: a literal, or one of the
template variables the formatter declares in TemplateData.  The source
parses the template string once in formatter.New; the model consumes the
parsed form directly. -/
inductive TmplElem
  | lit (s : String)
  | timestampVar
  | levelVar
  | userVar
  | pidVar
  | lineVar
deriving DecidableEq, Repr

/-- Model of config.PrefixConfig (the "prefix" section of the
configuration), with the template already parsed. -/
structure PfxConfig where
  template : List TmplElem
  timestamp : TimestampConfig
  colors : ColorsConfig
  user : UserConfig
  pid : PIDConfig
deriving DecidableEq, Repr

/-- Model of config.OutputConfig. -/
structure OutputConfig where
  format : String
  buffer : String
deriving DecidableEq, Repr

/-- Model of config.DetectionConfig: the Go map[string][]string of
level-name to keywords is modelled as an association list; Go's map
iteration order is unspecified, so theorems about keyword hits are stated
existentially over the entries. -/
structure DetectionConfig where
  enabled : Bool
  keywords : List (String × List String)
deriving DecidableEq, Repr

/-- Model of config.LogLevelConfig. -/
structure LogLevelConfig where
  defaultStdout : String
  defaultStderr : String
  detection : DetectionConfig
deriving DecidableEq, Repr

/-- Model of config.Config restricted to the fields the formatter reads. -/
structure Config where
  pfx : PfxConfig
  output : OutputConfig
  logLevel : LogLevelConfig
deriving DecidableEq, Repr

/-- The per-formatter ambient data the source obtains from the OS at
construction or call time: the rendered timestamp of the current instant
(time.Now formatted per the timestamp configuration), the current user, and
the wrapper's pid. -/
structure Env where
  timestamp : String
  username : String
  uid : String
  pid : Nat
deriving DecidableEq, Repr

/-- The data available to template rendering (formatter.TemplateData). -/
structure TemplateData where
  timestamp : String
  level : String
  user : String
  pid : String
  line : String
deriving DecidableEq, Repr

/-- The stream's configured default severity, as selected by both branches
of getLogLevel. -/
def streamDefault (cfg : Config) : StreamType → String
  | .stdout => cfg.logLevel.defaultStdout
  | .stderr => cfg.logLevel.defaultStderr

/-- The keyword scan of getLogLevel: walk the configured levels, and on the
first level with a keyword whose uppercasing occurs in the uppercased line,
return that level's name uppercased. -/
def findLevel (lineUpper : String) : List (String × List String) → Option String
  | [] => none
  | (level, kws) :: rest =>
    if kws.any (fun kw => strContains lineUpper (strToUpper kw)) then some (strToUpper level)
    else findLevel lineUpper rest

/-- Model of DefaultFormatter.getLogLevel: with detection disabled the
stream's default level; with detection enabled the first keyword hit's
uppercased level name, or the stream's default when nothing matches. -/
def getLogLevel (cfg : Config) (line : String) (st : StreamType) : String :=
  if ¬ cfg.logLevel.detection.enabled then
    match st with
    | .stdout => cfg.logLevel.defaultStdout
    | .stderr => cfg.logLevel.defaultStderr
  else
    match findLevel (strToUpper line) cfg.logLevel.detection.keywords with
    | some lv => lv
    | none =>
      match st with
      | .stdout => cfg.logLevel.defaultStdout
      | .stderr => cfg.logLevel.defaultStderr

/-- Model of DefaultFormatter.getUserString. -/
def getUserString (cfg : Config) (env : Env) : String :=
  if ¬ cfg.pfx.user.enabled then ""
  else
    match cfg.pfx.user.format with
    | "username" => env.username
    | "uid" => env.uid
    | "full" => env.username ++ "(" ++ env.uid ++ ")"
    | _ => env.username

/-- Lowercase hexadecimal digits of a natural number (Go %x). -/
def hexStr (n : Nat) : String := String.mk (Nat.toDigits 16 n)

/-- Model of DefaultFormatter.getPIDString. -/
def getPIDString (cfg : Config) (env : Env) : String :=
  if ¬ cfg.pfx.pid.enabled then ""
  else
    match cfg.pfx.pid.format with
    | "decimal" => toString env.pid
    | "hex" => "0x" ++ hexStr env.pid
    | _ => toString env.pid

/-- Model of buildTemplateData: the rendered timestamp comes from the
environment (getTimestamp formats time.Now), the level from getLogLevel,
user and pid from their accessors. -/
def buildTemplateData (cfg : Config) (env : Env) (line : String) (st : StreamType) :
    TemplateData :=
  ⟨env.timestamp, getLogLevel cfg line st, getUserString cfg env, getPIDString cfg env, line⟩

/-- Render one parsed template element against the template data. -/
def renderElem (d : TemplateData) : TmplElem → String
  | .lit s => s
  | .timestampVar => d.timestamp
  | .levelVar => d.level
  | .userVar => d.user
  | .pidVar => d.pid
  | .lineVar => d.line

/-- Execute the parsed prefix template (template.Execute on the parsed
form). -/
def renderTemplate (t : List TmplElem) (d : TemplateData) : String :=
  String.join (t.map (renderElem d))

/-- Model of getColorCode: the fixed name-to-ANSI-code table, empty string
for unknown names. -/
def getColorCode (colorName : String) : String :=
  match strToLower colorName with
  | "black" => "\x1b[30m"
  | "red" => "\x1b[31m"
  | "green" => "\x1b[32m"
  | "yellow" => "\x1b[33m"
  | "blue" => "\x1b[34m"
  | "magenta" => "\x1b[35m"
  | "cyan" => "\x1b[36m"
  | "white" => "\x1b[37m"
  | _ => ""

/-- The colors map built in formatter.New: empty when colors are disabled,
otherwise the info, error and timestamp codes plus the reset code. -/
def colorFor (cfg : Config) (key : String) : String :=
  if ¬ cfg.pfx.colors.enabled then ""
  else
    match key with
    | "info" => getColorCode cfg.pfx.colors.info
    | "error" => getColorCode cfg.pfx.colors.error
    | "timestamp" => getColorCode cfg.pfx.colors.timestamp
    | "reset" => "\x1b[0m"
    | _ => ""

/-- Model of applyTimestampColor. -/
def applyTimestampColor (cfg : Config) (text color : String) : String :=
  if color ≠ "" ∧ colorFor cfg "reset" ≠ "" then color ++ text ++ colorFor cfg "reset"
  else text

/-- Model of colorizePrefix. -/
def colorizePfx (cfg : Config) (p : String) : String :=
  if ¬ cfg.pfx.colors.enabled then p
  else
    let tc := colorFor cfg "timestamp"
    if tc ≠ "" then applyTimestampColor cfg p tc else p

/-- Model of colorizeLine: error-class levels get the error color,
info-class levels the info color, anything else is returned unchanged. -/
def colorizeLine (cfg : Config) (line level : String) : String :=
  if ¬ cfg.pfx.colors.enabled then line
  else
    let lu := strToUpper level
    if lu = "ERROR" ∨ lu = "FATAL" ∨ lu = "PANIC" then
      let color := colorFor cfg "error"
      if color ≠ "" ∧ colorFor cfg "reset" ≠ "" then color ++ line ++ colorFor cfg "reset"
      else line
    else if lu = "INFO" ∨ lu = "DEBUG" ∨ lu = "TRACE" ∨ lu = "WARN" ∨ lu = "WARNING" then
      let color := colorFor cfg "info"
      if color ≠ "" ∧ colorFor cfg "reset" ≠ "" then color ++ line ++ colorFor cfg "reset"
      else line
    else line

/-- Model of formatText: execute the prefix template, then either colorize
the prefix and the line or plainly concatenate them. -/
def formatText (cfg : Config) (d : TemplateData) : String :=
  let p := renderTemplate cfg.pfx.template d
  if cfg.pfx.colors.enabled then
    colorizePfx cfg p ++ colorizeLine cfg d.line d.level
  else p ++ d.line

/-- Model of needsQuoting: whitespace, quotes, backslash, the equals sign,
control characters and DEL require quoting (character codes 32 space, 9 tab,
10 newline, 13 carriage return, 34 double quote, 39 single quote, 92
backslash, 61 equals, below 32 control, 127 DEL). -/
def needsQuoting (s : String) : Bool :=
  s.toList.any (fun r =>
    let c := r.toNat
    c = 32 ∨ c = 9 ∨ c = 10 ∨ c = 13 ∨ c = 34 ∨ c = 39 ∨ c = 92 ∨ c = 61 ∨
      c < 32 ∨ c = 127)

/-- Two lowercase hexadecimal digits of a byte value. -/
def hexByte (n : Nat) : String :=
  if n < 16 then "0" ++ hexStr n else hexStr n

/-- One character of strconv.Quote's output (ASCII range): named escapes
for quote, backslash and the control characters Go names, hexadecimal
escapes for the other non-printables. -/
def quoteChar (c : Char) : String :=
  let n := c.toNat
  if n = 34 then "\\\""
  else if n = 92 then "\\\\"
  else if n = 7 then "\\a"
  else if n = 8 then "\\b"
  else if n = 12 then "\\f"
  else if n = 10 then "\\n"
  else if n = 13 then "\\r"
  else if n = 9 then "\\t"
  else if n = 11 then "\\v"
  else if n < 32 ∨ n = 127 then "\\x" ++ hexByte n
  else String.singleton c

/-- Model of strconv.Quote restricted to ASCII content. -/
def strconvQuote (s : String) : String :=
  "\"" ++ String.join (s.toList.map quoteChar) ++ "\""

/-- Model of quoteIfNeeded. -/
def quoteIfNeeded (s : String) : String :=
  if needsQuoting s then strconvQuote s else s

/-- Model of formatStructured: key=value pairs with quoting where needed
and the message always quoted. -/
def formatStructured (d : TemplateData) : String :=
  "timestamp=" ++ quoteIfNeeded d.timestamp ++ " level=" ++ quoteIfNeeded d.level ++
    " user=" ++ quoteIfNeeded d.user ++ " pid=" ++ quoteIfNeeded d.pid ++
    " message=" ++ strconvQuote d.line

/-- One character of encoding/json's string encoding (ASCII range): the
standard escapes, \u00XX for other control characters, and the default
HTML-safe escaping of angle brackets and ampersand. -/
def jsonEscapeChar (c : Char) : String :=
  let n := c.toNat
  if n = 34 then "\\\""
  else if n = 92 then "\\\\"
  else if n = 10 then "\\n"
  else if n = 13 then "\\r"
  else if n = 9 then "\\t"
  else if n < 32 then "\\u00" ++ hexByte n
  else if n = 60 ∨ n = 62 ∨ n = 38 then "\\u00" ++ hexByte n
  else String.singleton c

/-- A JSON string literal for ASCII content. -/
def jsonStr (s : String) : String :=
  "\"" ++ String.join (s.toList.map jsonEscapeChar) ++ "\""

/-- Model of formatJSON: json.Marshal of the five-entry map, whose keys Go
serializes in sorted order (level, message, pid, timestamp, user). -/
def formatJSON (d : TemplateData) : String :=
  "\x7b" ++ jsonStr "level" ++ ":" ++ jsonStr d.level ++
    "," ++ jsonStr "message" ++ ":" ++ jsonStr d.line ++
    "," ++ jsonStr "pid" ++ ":" ++ jsonStr d.pid ++
    "," ++ jsonStr "timestamp" ++ ":" ++ jsonStr d.timestamp ++
    "," ++ jsonStr "user" ++ ":" ++ jsonStr d.user ++
    "\x7d"

/-- Model of DefaultFormatter.FormatLine: an empty line is passed through
unchanged; otherwise the template data is built and rendered according to
the configured output format, text being the default. -/
def FormatLine (cfg : Config) (env : Env) (line : String) (st : StreamType) : String :=
  if line = "" then line
  else
    let d := buildTemplateData cfg env line st
    match cfg.output.format with
    | "json" => formatJSON d
    | "structured" => formatStructured d
    | _ => formatText cfg d

/-- Model of config.getDefaultConfig, with the default template
"[{{.Timestamp}}] [{{.Level}}] [{{.User}}:{{.PID}}] " already parsed and
the keyword map as an association list in declaration order (Go map
iteration order is unspecified, so theorems quantify over entries
existentially). -/
def defaultConfig : Config :=
  { pfx :=
    { template :=
        [.lit "[", .timestampVar, .lit "] [", .levelVar, .lit "] [", .userVar,
         .lit ":", .pidVar, .lit "] "],
      timestamp := { format := "%Y-%m-%dT%H:%M:%S%z", utc := false },
      colors := { enabled := false, info := "green", error := "red", timestamp := "blue" },
      user := { enabled := true, format := "username" },
      pid := { enabled := true, format := "decimal" } },
    output := { format := "text", buffer := "line" },
    logLevel :=
    { defaultStdout := "INFO", defaultStderr := "ERROR",
      detection :=
      { enabled := true,
        keywords :=
          [("error", ["ERROR", "FATAL", "PANIC", "error:", "Error:", "ERROR:"]),
           ("warn", ["WARN", "WARNING", "warn:", "Warn:", "WARN:", "WARNING:"]),
           ("debug", ["DEBUG", "TRACE", "debug:", "Debug:", "DEBUG:", "TRACE:"]),
           ("info", ["INFO", "info:", "Info:", "INFO:"])] } } }

end Formatter

/-! Helper lemmas about the stream-processing model, shared by the claims. -/

theorem scanTokens_all_ok (lines : List String)
    (h : ∀ l ∈ lines, l.length ≤ Processor.maxScannerSize) :
    Processor.scanTokens lines = (lines, none) := by
  induction lines with
  | nil => rfl
  | cons l ls ih =>
    have hl : ¬ l.length > Processor.maxScannerSize :=
      Nat.not_lt.mpr (h l (by simp))
    have hls := ih (fun x hx => h x (by simp [hx]))
    simp [Processor.scanTokens, hl, hls]

theorem processLoop_clean (f : String → StreamType → String) (st : StreamType)
    (i : Nat) (lines : List String) :
    Processor.processLoop f st none none i lines
      = (lines.map (fun l => f l st ++ "\n"), none) := by
  induction lines generalizing i with
  | nil => rfl
  | cons l ls ih => simp [Processor.processLoop, Processor.firesAt, ih]

theorem processStream_clean (f : String → StreamType → String) (st : StreamType)
    (lines : List String)
    (h : ∀ l ∈ lines, l.length ≤ Processor.maxScannerSize) :
    Processor.processStream f st none none ⟨lines, none⟩
      = (lines.map (fun l => f l st ++ "\n"), none) := by
  simp [Processor.processStream, scanTokens_all_ok lines h, processLoop_clean]

theorem processLoop_cancelled (f : String → StreamType → String) (st : StreamType)
    (k : Nat) (lines : List String) : ∀ i, i ≤ k → k - i < lines.length →
    Processor.processLoop f st (some k) none i lines
      = ((lines.take (k - i)).map (fun l => f l st ++ "\n"), some .ctxCancelled) := by
  induction lines with
  | nil => intro i _ hlt; simp at hlt
  | cons l ls ih =>
    intro i hik hlt
    by_cases hk : k ≤ i
    · have hi : i = k := Nat.le_antisymm hik hk
      subst hi
      simp [Processor.processLoop, Processor.firesAt, Nat.sub_self]
    · have e1 : k - i = (k - (i + 1)) + 1 := by omega
      have hlt' : k - (i + 1) < ls.length := by
        simp only [List.length_cons] at hlt; omega
      have hrec := ih (i + 1) (by omega) hlt'
      simp [Processor.processLoop, Processor.firesAt, hk, hrec, e1]

theorem processStream_cancelled (f : String → StreamType → String) (st : StreamType)
    (k : Nat) (lines : List String) (hk : k < lines.length)
    (hlen : ∀ l ∈ lines, l.length ≤ Processor.maxScannerSize) :
    Processor.processStream f st (some k) none ⟨lines, none⟩
      = ((lines.take k).map (fun l => f l st ++ "\n"), some .ctxCancelled) := by
  have hloop := processLoop_cancelled f st k lines 0 (Nat.zero_le k) (by simpa using hk)
  simp [Processor.processStream, scanTokens_all_ok lines hlen, hloop]

theorem scanTokens_too_long (pre : List String) (big : String) (rest : List String)
    (hpre : ∀ l ∈ pre, l.length ≤ Processor.maxScannerSize)
    (hbig : Processor.maxScannerSize < big.length) :
    Processor.scanTokens (pre ++ big :: rest) = (pre, some .tooLong) := by
  induction pre with
  | nil => simp [Processor.scanTokens, hbig]
  | cons l ls ih =>
    have hl : ¬ l.length > Processor.maxScannerSize :=
      Nat.not_lt.mpr (hpre l (by simp))
    have hls := ih (fun x hx => hpre x (by simp [hx]))
    simp [Processor.scanTokens, hl, hls]

theorem processStream_too_long (f : String → StreamType → String) (st : StreamType)
    (pre : List String) (big : String) (rest : List String)
    (hpre : ∀ l ∈ pre, l.length ≤ Processor.maxScannerSize)
    (hbig : Processor.maxScannerSize < big.length) :
    Processor.processStream f st none none ⟨pre ++ big :: rest, none⟩
      = (pre.map (fun l => f l st ++ "\n"), some (.scanFault st .tooLong)) := by
  simp [Processor.processStream, scanTokens_too_long pre big rest hpre hbig,
    processLoop_clean]

/-- The claim C1: on one stream, the reading task emits exactly one sink
write per input line, in input order, each write being FormatLine of the
line for that stream with a single newline appended; and an empty input
line is passed through unchanged by the Formatter (FormatLine returns the
empty string) yet still written newline-terminated, because the processor
appends the newline itself. -/
theorem c1_one_write_per_line_in_order (f : String → StreamType → String)
    (st : StreamType) (lines : List String)
    (h : ∀ l ∈ lines, l.length ≤ Processor.maxScannerSize) :
    Processor.processStream f st none none ⟨lines, none⟩
      = (lines.map (fun l => f l st ++ "\n"), none)
    ∧ (∀ cfg env, Formatter.FormatLine cfg env "" st = "") :=
  ⟨processStream_clean f st lines h, fun _ _ => rfl⟩

/-- Witness for C1 at a concrete three-line input containing an empty
line. -/
theorem c1_one_write_per_line_in_order_witness :
    (∀ l ∈ (["alpha", "", "beta"] : List String),
      l.length ≤ Processor.maxScannerSize)
    ∧ (Processor.processStream (fun l _ => "p" ++ l) .stdout none none
          ⟨["alpha", "", "beta"], none⟩
        = ((["alpha", "", "beta"] : List String).map
            (fun l => (fun l _ => "p" ++ l) l StreamType.stdout ++ "\n"), none)
      ∧ (∀ cfg env, Formatter.FormatLine cfg env "" .stdout = "")) :=
  ⟨by decide, c1_one_write_per_line_in_order (fun l _ => "p" ++ l) .stdout
    ["alpha", "", "beta"] (by decide)⟩

/-- Counterexample to C2 as stated: with cancellation observed immediately
on the stdout task while two lines are pending, the cancellation is
recorded in the error collector tagged with the stream, and ProcessStreams
returns the aggregate failure on account of the cancellation alone. -/
theorem c2_counterexample :
    (Processor.processStreams (fun l _ => l)
        (some ⟨⟨["a", "b"], none⟩, some 0, none⟩)
        (some ⟨⟨[], none⟩, some 0, none⟩)).result
      = .aggregate [(.stdout, .ctxCancelled)] := by decide

/-- The claim C2 as amended: when the cancellation signal fires while lines
are still pending, the reader task observes it at its next line-boundary
check, having written exactly the lines it processed before the signal,
and the cancellation IS reported as that stream's fault: a context-cancelled
error is recorded in the error collector and ProcessStreams returns an
aggregate failure naming it (the repository's own test asserts this
behaviour). -/
theorem c2_cancellation_is_reported (f : String → StreamType → String)
    (st : StreamType) (lines : List String) (k : Nat)
    (hk : k < lines.length)
    (hlen : ∀ l ∈ lines, l.length ≤ Processor.maxScannerSize) :
    Processor.processStream f st (some k) none ⟨lines, none⟩
      = ((lines.take k).map (fun l => f l st ++ "\n"), some .ctxCancelled)
    ∧ (Processor.processStreams f (some ⟨⟨lines, none⟩, some k, none⟩)
        (some ⟨⟨[], none⟩, some k, none⟩)).result
      = .aggregate [(.stdout, .ctxCancelled)] := by
  have h1 := processStream_cancelled f st k lines hk hlen
  have h2 := processStream_cancelled f .stdout k lines hk hlen
  have h3 : Processor.processStream f .stderr (some k) none ⟨[], none⟩
      = ([], none) := rfl
  refine ⟨h1, ?_⟩
  simp [Processor.processStreams, h2, h3]

/-- Witness for C2's amended statement at a concrete input cancelled after
one line. -/
theorem c2_cancellation_is_reported_witness :
    ((1 : Nat) < (["x", "y", "z"] : List String).length
      ∧ ∀ l ∈ (["x", "y", "z"] : List String),
          l.length ≤ Processor.maxScannerSize)
    ∧ (Processor.processStream (fun l _ => l) .stderr (some 1) none
          ⟨["x", "y", "z"], none⟩
        = (((["x", "y", "z"] : List String).take 1).map
            (fun l => (fun l _ => l) l StreamType.stderr ++ "\n"), some .ctxCancelled)
      ∧ (Processor.processStreams (fun l _ => l)
            (some ⟨⟨["x", "y", "z"], none⟩, some 1, none⟩)
            (some ⟨⟨[], none⟩, some 1, none⟩)).result
          = .aggregate [(.stdout, .ctxCancelled)]) :=
  ⟨⟨by decide, by decide⟩, c2_cancellation_is_reported (fun l _ => l) .stderr
    ["x", "y", "z"] 1 (by decide) (by decide)⟩

/-- The claim C8: the scanner bound is one megabyte; when one stream
contains a line strictly exceeding the bound, the scan of that stream stops
there and the reader task reports the scanner fault, tagged with its
stream, in the aggregate; the sibling stream still processes all of its
lines successfully. -/
theorem c8_long_line_faults_only_its_stream (f : String → StreamType → String)
    (pre : List String) (big : String) (rest elines : List String)
    (hpre : ∀ l ∈ pre, l.length ≤ Processor.maxScannerSize)
    (hbig : Processor.maxScannerSize < big.length)
    (helines : ∀ l ∈ elines, l.length ≤ Processor.maxScannerSize) :
    Processor.maxScannerSize = 1024 * 1024
    ∧ Processor.processStreams f
        (some ⟨⟨pre ++ big :: rest, none⟩, none, none⟩)
        (some ⟨⟨elines, none⟩, none, none⟩)
      = ⟨pre.map (fun l => f l .stdout ++ "\n"),
         elines.map (fun l => f l .stderr ++ "\n"),
         .aggregate [(.stdout, .scanFault .stdout .tooLong)]⟩ := by
  refine ⟨rfl, ?_⟩
  have h1 := processStream_too_long f .stdout pre big rest hpre hbig
  have h2 := processStream_clean f .stderr elines helines
  simp [Processor.processStreams, h1, h2]

/-- Witness for C8 with a 1048577-character line on stdout and two normal
lines on stderr. -/
theorem c8_long_line_faults_only_its_stream_witness :
    ((∀ l ∈ (["pre"] : List String), l.length ≤ Processor.maxScannerSize)
      ∧ Processor.maxScannerSize < (String.mk (List.replicate 1048577 'Z')).length
      ∧ (∀ l ∈ (["e1", "e2"] : List String), l.length ≤ Processor.maxScannerSize))
    ∧ (Processor.maxScannerSize = 1024 * 1024
      ∧ Processor.processStreams (fun l _ => l)
          (some ⟨⟨["pre"] ++ String.mk (List.replicate 1048577 'Z') :: [], none⟩, none, none⟩)
          (some ⟨⟨["e1", "e2"], none⟩, none, none⟩)
        = ⟨(["pre"] : List String).map (fun l => (fun l _ => l) l StreamType.stdout ++ "\n"),
           (["e1", "e2"] : List String).map (fun l => (fun l _ => l) l StreamType.stderr ++ "\n"),
           .aggregate [(.stdout, .scanFault .stdout .tooLong)]⟩) := by
  have hbig : Processor.maxScannerSize < (String.mk (List.replicate 1048577 'Z')).length := by
    have h1 : (String.mk (List.replicate 1048577 'Z')).length = 1048577 := by
      show (List.replicate 1048577 'Z').length = 1048577
      exact List.length_replicate 1048577 'Z'
    rw [h1]
    norm_num [Processor.maxScannerSize]
  exact ⟨⟨by decide, hbig, by decide⟩,
    c8_long_line_faults_only_its_stream (fun l _ => l) ["pre"]
      (String.mk (List.replicate 1048577 'Z')) [] ["e1", "e2"] (by decide) hbig (by decide)⟩

/-- Counterexample to C3 as stated: when the run ends because the child was
terminated by signal 15 (terminate), the code passed to os.Exit is the
recorded ExitCode value -1, not the conventional 128 + 15 = 143; no
signal-to-exit-code mapping exists in the orchestration. -/
theorem c3_counterexample :
    mainRunExit (.signaled 15) = -1
    ∧ (128 + 15 : Int) = 143
    ∧ mainRunExit (.signaled 15) ≠ 128 + 15 := by decide

/-- The claim C3 as amended: the wrapper always exits with the exit code
the executor recorded from the child: the child process code on a normal
exit, and -1 (the Go ExitCode value for a signal-terminated process) when
the run ends because a termination signal killed the child, with no
128-plus-signal mapping; an OS-level wait failure makes run fail and main
exit 1. -/
theorem c3_exit_code_unmapped :
    (∀ c : Nat, mainRunExit (.exited c) = (c : Int))
    ∧ (∀ s : Nat, mainRunExit (.signaled s) = -1)
    ∧ mainRunExit .osError = 1 := by
  refine ⟨?_, ?_, rfl⟩
  · intro c
    cases c with
    | zero => rfl
    | succ n => rfl
  · intro s; rfl

/-! Helper lemmas about path splitting, for the C4 analysis. -/

theorem splitOnChar_ne_nil (c : Char) (l : List Char) : splitOnChar c l ≠ [] := by
  induction l with
  | nil => simp [splitOnChar]
  | cons x xs ih =>
    simp only [splitOnChar]
    split
    · simp
    · split
      · simp
      · simp

theorem splitOnChar_chunks (c : Char) (l : List Char) :
    (∀ seg ∈ splitOnChar c l, List.IsInfix seg l)
    ∧ (∀ h t, splitOnChar c l = h :: t → List.IsPrefix h l) := by
  induction l with
  | nil =>
    refine ⟨?_, ?_⟩
    · intro seg hseg
      simp only [splitOnChar, List.mem_singleton] at hseg
      exact ⟨[], [], by simp [hseg]⟩
    · intro h t hht
      simp only [splitOnChar, List.cons.injEq] at hht
      exact ⟨[], by simp [hht.1]⟩
  | cons x xs ih =>
    by_cases hx : x = c
    · have hdef : splitOnChar c (x :: xs) = [] :: splitOnChar c xs := by
        simp [splitOnChar, hx]
      refine ⟨?_, ?_⟩
      · intro seg hseg
        rw [hdef] at hseg
        rcases List.mem_cons.mp hseg with h | h
        · exact ⟨[], x :: xs, by simp [h]⟩
        · exact List.infix_cons (ih.1 seg h)
      · intro h t hht
        rw [hdef] at hht
        cases hht
        exact ⟨x :: xs, by simp⟩
    · obtain ⟨rh, rt, hr⟩ : ∃ rh rt, splitOnChar c xs = rh :: rt := by
        cases hsp : splitOnChar c xs with
        | nil => exact absurd hsp (splitOnChar_ne_nil c xs)
        | cons a b => exact ⟨a, b, rfl⟩
      have hdef : splitOnChar c (x :: xs) = (x :: rh) :: rt := by
        simp [splitOnChar, hx, hr]
      have hpre : List.IsPrefix rh xs := ih.2 rh rt hr
      refine ⟨?_, ?_⟩
      · intro seg hseg
        rw [hdef] at hseg
        rcases List.mem_cons.mp hseg with h | h
        · obtain ⟨t, ht⟩ := hpre
          exact ⟨[], t, by simp [h, ht]⟩
        · have hmem : seg ∈ splitOnChar c xs := by rw [hr]; exact List.mem_cons_of_mem rh h
          exact List.infix_cons (ih.1 seg hmem)
      · intro h t hht
        rw [hdef] at hht
        cases hht
        obtain ⟨t2, ht2⟩ := hpre
        exact ⟨t2, by simp [ht2]⟩

theorem hasParentSegment_imp_contains (p : String)
    (h : hasParentSegment p = true) : strContains p ".." = true := by
  unfold hasParentSegment at h
  unfold strContains
  have hmem := of_decide_eq_true h
  have hinf : List.IsInfix ['.', '.'] p.toList :=
    (splitOnChar_chunks '/' p.toList).1 _ hmem
  have hlist : String.toList ".." = ['.', '.'] := rfl
  rw [hlist]
  exact decide_eq_true hinf

/-- Counterexample to C4 as stated: the executable path "a..b" contains no
parent-directory traversal segment after lexical cleaning, yet New rejects
it with the path-traversal error, because the source checks whether ".."
occurs anywhere as a substring of the cleaned path, not as a path
element. -/
theorem c4_counterexample :
    Executor.New ["a..b"] = .error .commandPathTraversal
    ∧ hasParentSegment (Executor.filepathClean "a..b") = false :=
  ⟨rfl, rfl⟩

/-- The claim C4 as amended: New fails with the empty-command error exactly
on the empty vector, fails with the path-traversal error exactly when the
lexically cleaned executable path contains ".." as a substring — a
condition implied by, but strictly weaker than, containing a
parent-directory traversal segment — and succeeds on every other command
vector. -/
theorem c4_new_validation (cmd : List String) :
    (Executor.New cmd = .error .commandEmpty ↔ cmd = [])
    ∧ (∀ c rest, cmd = c :: rest →
        (Executor.New cmd = .error .commandPathTraversal
          ↔ strContains (Executor.filepathClean c) ".." = true))
    ∧ (∀ c rest, cmd = c :: rest →
        hasParentSegment (Executor.filepathClean c) = true →
        Executor.New cmd = .error .commandPathTraversal)
    ∧ (∀ c rest, cmd = c :: rest →
        strContains (Executor.filepathClean c) ".." = false →
        Executor.New cmd = .ok Executor.initState) := by
  refine ⟨?_, ?_, ?_, ?_⟩
  · cases cmd with
    | nil => simp [Executor.New]
    | cons c rest =>
      cases hb : strContains (Executor.filepathClean c) ".." with
      | true => simp [Executor.New, Executor.validateCommand, hb]
      | false => simp [Executor.New, Executor.validateCommand, hb]
  · intro c rest hc
    subst hc
    cases hb : strContains (Executor.filepathClean c) ".." with
    | true => simp [Executor.New, Executor.validateCommand, hb]
    | false => simp [Executor.New, Executor.validateCommand, hb]
  · intro c rest hc hseg
    subst hc
    have hb := hasParentSegment_imp_contains _ hseg
    simp [Executor.New, Executor.validateCommand, hb]
  · intro c rest hc hb
    subst hc
    simp [Executor.New, Executor.validateCommand, hb]

/-- Witness for C4 as amended: a genuine traversal "../x" is rejected and a
clean relative path "tools/run" is accepted. -/
theorem c4_new_validation_witness :
    (hasParentSegment (Executor.filepathClean "../x") = true
      ∧ Executor.New ["../x"] = .error .commandPathTraversal)
    ∧ (strContains (Executor.filepathClean "tools/run") ".." = false
      ∧ Executor.New ["tools/run"] = .ok Executor.initState) :=
  ⟨⟨rfl, (c4_new_validation ["../x"]).2.2.1 "../x" [] rfl rfl⟩,
   ⟨rfl, (c4_new_validation ["tools/run"]).2.2.2 "tools/run" [] rfl rfl⟩⟩

/-- The claim C5: once the run has completed a Wait on a started executor,
a second Wait returns immediately with no error, regardless of what the
underlying OS wait would now report (it is not re-run), and leaves the
whole state, in particular the recorded exit code, unchanged; and Wait
called before Start fails with the not-started error. -/
theorem c5_wait_idempotent (e : Executor.State)
    (r r' : Executor.ChildResult)
    (hs : e.isStarted = true) (hf : e.isFinished = false) :
    Executor.Wait (Executor.Wait e r).1 r' = ((Executor.Wait e r).1, none)
    ∧ (∀ e0 : Executor.State, e0.isStarted = false →
        Executor.Wait e0 r' = (e0, some .notStarted)) := by
  constructor
  · have h1 : (Executor.Wait e r).1.isStarted = true
        ∧ (Executor.Wait e r).1.isFinished = true := by
      cases r with
      | exited c =>
        cases c with
        | zero => simp [Executor.Wait, hs, hf]
        | succ n => simp [Executor.Wait, hs, hf]
      | signaled s => simp [Executor.Wait, hs, hf]
      | osError => simp [Executor.Wait, hs, hf]
    have hgen : ∀ e1 : Executor.State, e1.isStarted = true → e1.isFinished = true →
        Executor.Wait e1 r' = (e1, none) := by
      intro e1 ha hb
      simp [Executor.Wait, ha, hb]
    exact hgen _ h1.1 h1.2
  · intro e0 h0
    simp [Executor.Wait, h0]

/-- Witness for C5 on a started executor whose child exits with code 3; the
second Wait is handed a different OS outcome and still reports nothing. -/
theorem c5_wait_idempotent_witness :
    ((⟨0, true, false, false⟩ : Executor.State).isStarted = true
      ∧ (⟨0, true, false, false⟩ : Executor.State).isFinished = false)
    ∧ (Executor.Wait (Executor.Wait ⟨0, true, false, false⟩ (.exited 3)).1 (.signaled 9)
        = ((Executor.Wait ⟨0, true, false, false⟩ (.exited 3)).1, none)
      ∧ Executor.Wait Executor.initState (.signaled 9)
        = (Executor.initState, some .notStarted)) :=
  ⟨⟨rfl, rfl⟩,
   (c5_wait_idempotent ⟨0, true, false, false⟩ (.exited 3) (.signaled 9) rfl rfl).1,
   (c5_wait_idempotent ⟨0, true, false, false⟩ (.exited 3) (.signaled 9) rfl rfl).2
     Executor.initState rfl⟩

/-- The claim C6: when the child exits with a non-zero code and the OS wait
itself succeeds, Wait returns no error and records that code, queryable via
GetExitCode; under a started, unfinished executor Wait returns an error
exactly for the OS-level wait failure. -/
theorem c6_nonzero_exit_recorded_not_error (e : Executor.State) (c : Nat)
    (hs : e.isStarted = true) (hf : e.isFinished = false) (hc : c ≠ 0) :
    Executor.Wait e (.exited c)
      = ({ e with isFinished := true, exitCode := (c : Int) }, none)
    ∧ Executor.GetExitCode (Executor.Wait e (.exited c)).1 = (c : Int)
    ∧ (∀ r, (Executor.Wait e r).2 ≠ none ↔ r = .osError) := by
  have hwc : Executor.Wait e (.exited c)
      = ({ e with isFinished := true, exitCode := (c : Int) }, none) := by
    cases c with
    | zero => exact absurd rfl hc
    | succ n => simp [Executor.Wait, hs, hf]
  refine ⟨hwc, by simp [hwc, Executor.GetExitCode], ?_⟩
  intro r
  cases r with
  | exited c2 =>
    cases c2 with
    | zero => simp [Executor.Wait, hs, hf]
    | succ n => simp [Executor.Wait, hs, hf]
  | signaled s => simp [Executor.Wait, hs, hf]
  | osError => simp [Executor.Wait, hs, hf]

/-- Witness for C6 with a child exiting with code 7. -/
theorem c6_nonzero_exit_recorded_not_error_witness :
    ((⟨0, true, false, false⟩ : Executor.State).isStarted = true
      ∧ (⟨0, true, false, false⟩ : Executor.State).isFinished = false
      ∧ (7 : Nat) ≠ 0)
    ∧ (Executor.Wait ⟨0, true, false, false⟩ (.exited 7)
        = (⟨(7 : Int), true, true, false⟩, none)
      ∧ Executor.GetExitCode (Executor.Wait ⟨0, true, false, false⟩ (.exited 7)).1 = 7
      ∧ ((Executor.Wait ⟨0, true, false, false⟩ .osError).2 ≠ none
          ↔ Executor.ChildResult.osError = .osError)) :=
  ⟨⟨rfl, rfl, by decide⟩,
   (c6_nonzero_exit_recorded_not_error ⟨0, true, false, false⟩ 7 rfl rfl (by decide)).1,
   (c6_nonzero_exit_recorded_not_error ⟨0, true, false, false⟩ 7 rfl rfl (by decide)).2.1,
   (c6_nonzero_exit_recorded_not_error ⟨0, true, false, false⟩ 7 rfl rfl (by decide)).2.2
     .osError⟩

/-- The claim C7: when the executor is not started or already finished,
Stop and Kill return success without touching the state (so repeated calls
keep succeeding), and the stream-processor Stop is idempotent and cannot
fail (its stopOnce makes later invocations no-ops). -/
theorem c7_stop_kill_noop (e : Executor.State) (ok ok' : Bool)
    (p : Processor.State)
    (h : e.isStarted = false ∨ e.isFinished = true) :
    Executor.Stop e ok = (e, none)
    ∧ Executor.Kill e ok' = (e, none)
    ∧ Processor.stop (Processor.stop p) = Processor.stop p := by
  have hcond : ¬ e.isStarted ∨ e.isFinished = true := by
    rcases h with h1 | h1
    · exact Or.inl (by simp [h1])
    · exact Or.inr h1
  rcases hcond with h1 | h1
  · exact ⟨by simp [Executor.Stop, h1], by simp [Executor.Kill, h1], rfl⟩
  · exact ⟨by simp [Executor.Stop, h1], by simp [Executor.Kill, h1], rfl⟩

/-- Witness for C7 on the freshly constructed, unstarted executor. -/
theorem c7_stop_kill_noop_witness :
    (Executor.initState.isStarted = false ∨ Executor.initState.isFinished = true)
    ∧ (Executor.Stop Executor.initState true = (Executor.initState, none)
      ∧ Executor.Kill Executor.initState false = (Executor.initState, none)
      ∧ Processor.stop (Processor.stop ⟨false⟩) = Processor.stop ⟨false⟩) :=
  ⟨Or.inl rfl, c7_stop_kill_noop Executor.initState true false ⟨false⟩ (Or.inl rfl)⟩

theorem applyPreExit_preserves (e : Executor.State) (op : Executor.PreExitOp)
    (h1 : e.exitCode = 0) (h2 : e.isFinished = false) :
    (Executor.applyPreExit e op).exitCode = 0
    ∧ (Executor.applyPreExit e op).isFinished = false := by
  cases op with
  | startOp ok =>
    simp only [Executor.applyPreExit, Executor.Start]
    split
    · exact ⟨h1, h2⟩
    · split
      · exact ⟨h1, h2⟩
      · exact ⟨h1, h2⟩
  | stopOp ok =>
    simp only [Executor.applyPreExit, Executor.Stop]
    split
    · exact ⟨h1, h2⟩
    · split
      · exact ⟨h1, h2⟩
      · exact ⟨h1, h2⟩
  | killOp ok =>
    simp only [Executor.applyPreExit, Executor.Kill]
    split
    · exact ⟨h1, h2⟩
    · split
      · exact ⟨h1, h2⟩
      · exact ⟨h1, h2⟩
  | cleanupOp => exact ⟨h1, h2⟩

/-- The claim C9: in every state the executor can reach before the child
process has terminated — the initial state followed by any sequence of
Start, Stop, Kill and Cleanup calls (Wait only returns once the child has
terminated, except for the not-started error, which leaves the state
unchanged) — GetExitCode returns the default 0 and IsFinished returns
false; both queries are total functions of the state, hence always
defined. -/
theorem c9_queries_default_before_termination (ops : List Executor.PreExitOp) :
    Executor.GetExitCode (ops.foldl Executor.applyPreExit Executor.initState) = 0
    ∧ Executor.IsFinished (ops.foldl Executor.applyPreExit Executor.initState) = false := by
  have main : ∀ (ops : List Executor.PreExitOp) (e : Executor.State),
      e.exitCode = 0 → e.isFinished = false →
      (ops.foldl Executor.applyPreExit e).exitCode = 0
      ∧ (ops.foldl Executor.applyPreExit e).isFinished = false := by
    intro ops
    induction ops with
    | nil => intro e hx hfin; exact ⟨hx, hfin⟩
    | cons op rest ih =>
      intro e hx hfin
      have hp := applyPreExit_preserves e op hx hfin
      exact ih _ hp.1 hp.2
  exact main ops Executor.initState rfl rfl

/-! Helper lemmas about the keyword scan of getLogLevel. -/

theorem findLevel_none (lineUpper : String) (ks : List (String × List String))
    (h : ∀ lv kws, (lv, kws) ∈ ks → ∀ kw ∈ kws,
      strContains lineUpper (strToUpper kw) = false) :
    Formatter.findLevel lineUpper ks = none := by
  induction ks with
  | nil => rfl
  | cons entry rest ih =>
    obtain ⟨lv, kws⟩ := entry
    have hany : kws.any (fun kw => strContains lineUpper (strToUpper kw)) = false := by
      rw [List.any_eq_false]
      intro kw hkw
      simp [h lv kws (by simp) kw hkw]
    have hrest := ih (fun lv2 kws2 hm kw hkw => h lv2 kws2 (by simp [hm]) kw hkw)
    simp [Formatter.findLevel, hany, hrest]

theorem findLevel_some_spec (lineUpper : String) (ks : List (String × List String))
    (s : String) (h : Formatter.findLevel lineUpper ks = some s) :
    ∃ lv kws, (lv, kws) ∈ ks
      ∧ (∃ kw ∈ kws, strContains lineUpper (strToUpper kw) = true)
      ∧ s = strToUpper lv := by
  induction ks with
  | nil => simp [Formatter.findLevel] at h
  | cons entry rest ih =>
    obtain ⟨lv, kws⟩ := entry
    cases hany : kws.any (fun kw => strContains lineUpper (strToUpper kw)) with
    | true =>
      obtain ⟨kw, hkw, hc⟩ := List.any_eq_true.mp hany
      rw [Formatter.findLevel, if_pos hany] at h
      exact ⟨lv, kws, by simp, ⟨kw, hkw, hc⟩, (Option.some.injEq _ _ ▸ h).symm⟩
    | false =>
      rw [Formatter.findLevel, if_neg (by simp [hany])] at h
      obtain ⟨lv2, kws2, hm, hmatch, hval⟩ := ih h
      exact ⟨lv2, kws2, by simp [hm], hmatch, hval⟩

theorem findLevel_isSome_of_match (lineUpper : String)
    (ks : List (String × List String))
    (h : ∃ lv kws, (lv, kws) ∈ ks
      ∧ ∃ kw ∈ kws, strContains lineUpper (strToUpper kw) = true) :
    ∃ s, Formatter.findLevel lineUpper ks = some s := by
  induction ks with
  | nil => simp at h
  | cons entry rest ih =>
    obtain ⟨lv, kws⟩ := entry
    cases hany : kws.any (fun kw => strContains lineUpper (strToUpper kw)) with
    | true => exact ⟨strToUpper lv, by rw [Formatter.findLevel, if_pos hany]⟩
    | false =>
      obtain ⟨lv2, kws2, hm, kw, hkw, hc⟩ := h
      rcases List.mem_cons.mp hm with heq | hm2
      · exfalso
        have : kws2.any (fun kw => strContains lineUpper (strToUpper kw)) = true :=
          List.any_eq_true.mpr ⟨kw, hkw, hc⟩
        rw [show kws2 = kws from (Prod.mk.injEq _ _ _ _ ▸ heq).2] at this
        rw [hany] at this
        exact Bool.false_ne_true this
      · obtain ⟨s, hs⟩ := ih ⟨lv2, kws2, hm2, kw, hkw, hc⟩
        exact ⟨s, by rw [Formatter.findLevel, if_neg (by simp [hany]), hs]⟩

/-- The claim C10: for a non-empty line, the level selection of the default
formatter behaves as follows: with keyword detection disabled the level is
the configured default for the stream; with detection enabled, if some
configured level has a keyword occurring case-insensitively in the line
(the uppercased keyword is a substring of the uppercased line, as the
source computes it), the uppercased name of such a level is returned, and
otherwise the stream default is returned. -/
theorem c10_level_selection (cfg : Formatter.Config) (line : String)
    (st : StreamType) (_hne : line ≠ "") :
    (cfg.logLevel.detection.enabled = false →
      Formatter.getLogLevel cfg line st = Formatter.streamDefault cfg st)
    ∧ (cfg.logLevel.detection.enabled = true →
        ((∃ lv kws, (lv, kws) ∈ cfg.logLevel.detection.keywords
            ∧ ∃ kw ∈ kws, strContains (strToUpper line) (strToUpper kw) = true) →
          ∃ lv kws, (lv, kws) ∈ cfg.logLevel.detection.keywords
            ∧ (∃ kw ∈ kws, strContains (strToUpper line) (strToUpper kw) = true)
            ∧ Formatter.getLogLevel cfg line st = strToUpper lv)
        ∧ ((∀ lv kws, (lv, kws) ∈ cfg.logLevel.detection.keywords →
              ∀ kw ∈ kws, strContains (strToUpper line) (strToUpper kw) = false) →
            Formatter.getLogLevel cfg line st = Formatter.streamDefault cfg st)) := by
  refine ⟨?_, fun hen => ⟨?_, ?_⟩⟩
  · intro hdis
    cases st <;> simp [Formatter.getLogLevel, hdis, Formatter.streamDefault]
  · intro hex
    obtain ⟨s, hs⟩ := findLevel_isSome_of_match (strToUpper line) _ hex
    obtain ⟨lv, kws, hmem, hmatch, hval⟩ := findLevel_some_spec (strToUpper line) _ s hs
    refine ⟨lv, kws, hmem, hmatch, ?_⟩
    cases st <;> simp [Formatter.getLogLevel, hen, hs, hval]
  · intro hnone
    have h0 := findLevel_none (strToUpper line) cfg.logLevel.detection.keywords hnone
    cases st <;> simp [Formatter.getLogLevel, hen, h0, Formatter.streamDefault]

/-- Witness for C10 on the default configuration: the line contains the
keyword ERROR of the error level, and getLogLevel returns its uppercased
name. -/
theorem c10_level_selection_witness :
    ("boot ERROR now" ≠ ""
      ∧ Formatter.defaultConfig.logLevel.detection.enabled = true
      ∧ ("error", ["ERROR", "FATAL", "PANIC", "error:", "Error:", "ERROR:"])
          ∈ Formatter.defaultConfig.logLevel.detection.keywords
      ∧ strContains (strToUpper "boot ERROR now") (strToUpper "ERROR") = true)
    ∧ (∃ lv kws, (lv, kws) ∈ Formatter.defaultConfig.logLevel.detection.keywords
        ∧ (∃ kw ∈ kws, strContains (strToUpper "boot ERROR now") (strToUpper kw) = true)
        ∧ Formatter.getLogLevel Formatter.defaultConfig "boot ERROR now" .stdout
            = strToUpper lv) := by
  refine ⟨⟨by decide, rfl, by simp [Formatter.defaultConfig], by decide⟩, ?_⟩
  exact ((c10_level_selection Formatter.defaultConfig "boot ERROR now" .stdout
      (by decide)).2 rfl).1
    ⟨"error", ["ERROR", "FATAL", "PANIC", "error:", "Error:", "ERROR:"],
      by simp [Formatter.defaultConfig], "ERROR", by simp, by decide⟩

end Logwrap
